import Mathlib

/-!
Verification development for the admin-starter repository.

Part 1 embeds the access-control decision logic of `src/lib/auth.ts`
(`isEmailAllowed`, the custom `createUser` adapter, the `signIn` callback),
the admin-status PATCH handler of `src/app/api/admin/users/[id]/route.ts`,
and the email-whitelist POST handler together with the `email_whitelist`
table schema (unique, lowercased emails).

Modelling conventions:
- the Drizzle `email_whitelist` table is a list of the stored `email`
  column values; the unique constraint is the no-duplicate check on insert;
- the `users` table is a list of records with `id` and `isAdmin`;
- JavaScript `email.split("@")[1]` is `(email.splitOn "@")[1]?`, an
  `Option String` (`undefined` when there is no `@`), and
  `allowedDomains.includes(undefined)` is `false`;
- JavaScript falsiness of a possibly-empty string is an explicit
  comparison with `""`;
- the JS string methods `split`, `toLowerCase`, `trim` are modelled on the
  character list of the string so that they compute by reduction.
-/

/-- JavaScript `String.prototype.split` with a one-character separator. -/
def jsSplit (sep : Char) (s : String) : List String :=
  (s.data.splitOn sep).map String.mk

/-- JavaScript `String.prototype.toLowerCase` (ASCII case mapping). -/
def jsToLowerCase (s : String) : String :=
  String.mk (s.data.map Char.toLower)

/-- JavaScript `String.prototype.trim`: drop whitespace from both ends. -/
def jsTrim (s : String) : String :=
  String.mk
    (((s.data.dropWhile Char.isWhitespace).reverse.dropWhile
      Char.isWhitespace).reverse)

/-- Static configuration: `authConfig.allowedEmailDomains` from `config.ts`,
an ordered list of bare domain strings fixed for the process lifetime. -/
structure AuthConfig where
  allowedEmailDomains : List String

/-- JavaScript `email.split("@")[1]`: the segment between the first and the
second `@`, or `undefined` (here `none`) when the string has no `@`. -/
def emailDomain (email : String) : Option String :=
  (jsSplit '@' email)[1]?

/-- JavaScript `Array.prototype.includes` applied to a possibly-undefined
argument: `undefined` is never an element of a string array. -/
def jsIncludes (l : List String) : Option String → Bool
  | some s => l.contains s
  | none => false

/-- `isEmailAllowed` from `src/lib/auth.ts`: if the configured domain list is
non-empty and contains the email domain, allow immediately; otherwise look
the lowercased email up in the `email_whitelist` table (`whitelist` is the
list of stored `email` column values). -/
def isEmailAllowed (config : AuthConfig) (whitelist : List String)
    (email : String) : Bool :=
  if config.allowedEmailDomains.length > 0 &&
      jsIncludes config.allowedEmailDomains (emailDomain email) then
    true
  else
    whitelist.contains (jsToLowerCase email)

/-- The `isAdmin` value persisted by the custom `createUser` adapter method in
`src/lib/auth.ts`: `shouldBeAdmin` starts `false` and becomes
`allowedDomains.includes(emailDomain)` only when `userData.email` is truthy
and the domain list is non-empty. -/
def createUserIsAdmin (config : AuthConfig) (email : String) : Bool :=
  if email ≠ "" && config.allowedEmailDomains.length > 0 then
    jsIncludes config.allowedEmailDomains (emailDomain email)
  else
    false

/-- Outcome of the `signIn` callback in `src/lib/auth.ts`:
`accessDeniedError` models `throw new Error("AccessDenied")`, `denied`
models `return false`, `allowed` models `return true`. -/
inductive SignInDecision where
  | accessDeniedError
  | denied
  | allowed
  deriving DecidableEq, Repr

/-- The `signIn` callback from `src/lib/auth.ts`: a missing (or JS-falsy,
i.e. empty) email throws `AccessDenied`; otherwise the decision is exactly
`isEmailAllowed`, returning `false` (not throwing) on a deny. -/
def signInCallback (config : AuthConfig) (whitelist : List String)
    (email : Option String) : SignInDecision :=
  match email with
  | none => .accessDeniedError
  | some e =>
    if e = "" then .accessDeniedError
    else if isEmailAllowed config whitelist e then .allowed
    else .denied

/-- A row of the `users` table, restricted to the columns the admin PATCH
handler touches. -/
structure UserRow where
  id : String
  isAdmin : Bool
  deriving DecidableEq, Repr

/-- The session data consulted by the PATCH handler
(`session.user.id`, `session.user.isAdmin`). -/
structure SessionUser where
  userId : String
  isAdmin : Bool
  deriving DecidableEq, Repr

/-- Responses of the PATCH handler in
`src/app/api/admin/users/[id]/route.ts`. -/
inductive PatchResponse where
  | unauthorized
  | invalidIsAdmin
  | selfDemotionRejected
  | success
  deriving DecidableEq, Repr

/-- The PATCH handler of `src/app/api/admin/users/[id]/route.ts`.
`session` is the authenticated session (if any), `body` is the parsed
`isAdmin` field of the request body (`none` when it is not a boolean),
`targetId` is the path parameter, `table` the `users` table. Returns the
response together with the table after the handler ran. -/
def patchUserAdmin (session : Option SessionUser) (body : Option Bool)
    (targetId : String) (table : List UserRow) :
    PatchResponse × List UserRow :=
  match session with
  | none => (.unauthorized, table)
  | some s =>
    if !s.isAdmin then (.unauthorized, table)
    else
      match body with
      | none => (.invalidIsAdmin, table)
      | some v =>
        if s.userId = targetId && !v then (.selfDemotionRejected, table)
        else
          (.success,
            table.map (fun u =>
              if u.id = targetId then { u with isAdmin := v } else u))

/-- The email-format regex of the whitelist POST handler,
`/^[^\s@]+@[^\s@]+\.[^\s@]+$/`: exactly one `@`, a non-empty local part and
a non-empty rest, no whitespace anywhere, and a `.` in the rest preceded
and followed by at least one character (backtracking over `[^\s@]+`).
JS `\s` is modelled by `Char.isWhitespace`. -/
def emailRegexOk (s : String) : Bool :=
  match s.data.splitOn '@' with
  | [lpart, rpart] =>
    !lpart.isEmpty && !rpart.isEmpty &&
    (lpart ++ rpart).all (fun c => !c.isWhitespace) &&
    ((rpart.drop 1).dropLast.contains '.')
  | _ => false

/-- Responses of the whitelist POST handler (the email-whitelist route):
`badRequest` covers the missing-email and invalid-format 400s, `conflict`
is the 409 returned when the insert hits the unique constraint on
`email_whitelist.email`, `created` carries the stored email value. -/
inductive WhitelistPostResponse where
  | badRequest
  | conflict
  | created (storedEmail : String)
  deriving DecidableEq, Repr

/-- The whitelist POST handler: validate the email, normalize it with
`email.toLowerCase().trim()`, and insert it into the `email_whitelist`
table; the table's unique constraint on `email` rejects a duplicate of an
already-stored value, which the handler surfaces as a 409 conflict.
`table` is the list of stored `email` column values. -/
def whitelistPost (table : List String) (email : String) :
    WhitelistPostResponse × List String :=
  if email = "" then (.badRequest, table)
  else if !emailRegexOk email then (.badRequest, table)
  else
    let stored := jsTrim (jsToLowerCase email)
    if table.contains stored then (.conflict, table)
    else (.created stored, table ++ [stored])

/-!
Part 2 embeds `answerStructured` from `src/lib/services/llm/llm.ts`: a
retry loop of at most `maxRetries` attempts, each attempt issuing one chat
completion request, parsing the response as JSON and validating it against
the zod schema.

Modelling conventions:
- an attempt's outcome is abstracted as an oracle
  `attempts : Nat → AttemptOutcome α`: `ok v` means the request succeeded,
  the content was non-empty, `JSON.parse` succeeded and
  `responseSchema.parse` returned `v`; `err msg` means some step of the
  attempt threw an error with message `msg` (provider error, the
  `"No response content from LLM"` error for empty content, a JSON parse
  error, or a schema validation error — the `catch` treats them alike);
- the observable behaviour is the list of emitted events (requests with
  their exact message contents, and the `setTimeout` waits with their
  millisecond amounts) paired with the result: `Except.error msg` models a
  thrown error, `Except.ok v` the returned validated value;
- `maxRetries` is an integer; the `for` loop running `attempt` from `0`
  while `attempt < maxRetries` is fuelled recursion with
  `maxRetries.toNat` iterations.
-/

/-- Outcome of the body of one `try` block of `answerStructured`, before the
`catch`: either the validated value, or the message of the thrown error. -/
inductive AttemptOutcome (α : Type) where
  | ok (v : α)
  | err (msg : String)
  deriving DecidableEq, Repr

/-- Observable side effects of `answerStructured`: a chat completion request
carrying the two composed message contents, or a `setTimeout` wait. -/
inductive LLMEvent where
  | request (systemContent userContent : String)
  | wait (ms : Nat)
  deriving DecidableEq, Repr

/-- The retry instruction appended to the (already schema-enhanced) system
prompt on every attempt after the first. -/
def retryInstructionText : String :=
  "\n\nIMPORTANT: Your previous response failed validation. PLEASE RETURN ONLY VALID JSON AS INSTRUCTED ABOVE. No markdown, no backticks, just the raw JSON object."

/-- The reminder appended to the user prompt on every attempt after the
first. -/
def retryReminderText : String :=
  "\n\nREMINDER: Return ONLY valid JSON matching the specified schema."

/-- The system message content of attempt number `attempt` (0-based):
the enhanced system prompt, plus the retry instruction iff this is a
retry (`attempt > 0`). -/
def attemptSystemContent (enhancedSystemPrompt : String) (attempt : Nat) :
    String :=
  enhancedSystemPrompt ++
    (if attempt > 0 then retryInstructionText else "")

/-- The user message content of attempt number `attempt` (0-based). -/
def attemptUserContent (userPrompt : String) (attempt : Nat) : String :=
  userPrompt ++ (if attempt > 0 then retryReminderText else "")

/-- The message of the error thrown on the final attempt:
`Failed to get valid structured response after ${maxRetries} attempts.
Last error: ${lastError.message}`. -/
def finalErrorMsg (maxRetries : Int) (lastMsg : String) : String :=
  "Failed to get valid structured response after " ++ toString maxRetries
    ++ " attempts. Last error: " ++ lastMsg

/-- The message of the fallback error thrown after the loop when no attempt
ran: `Unexpected error in answerStructured`. -/
def fallbackErrorMsg : String := "Unexpected error in answerStructured"

/-- The body of the `for` loop of `answerStructured`, fuelled: `attempt` is
the loop counter, `fuel` the number of remaining iterations
(`maxRetries - attempt` clamped at zero) and `lastError` the message of
`lastError` (`none` when still `undefined`). Fuel zero is the loop exit:
`throw lastError || new Error("Unexpected error in answerStructured")`. -/
def answerStructuredGo {α : Type} (attempts : Nat → AttemptOutcome α)
    (maxRetries : Int) (sys user : String) :
    Nat → Nat → Option String → List LLMEvent × Except String α
  | _, 0, lastError => ([], .error (lastError.getD fallbackErrorMsg))
  | attempt, fuel + 1, _ =>
    let req := LLMEvent.request (attemptSystemContent sys attempt)
      (attemptUserContent user attempt)
    match attempts attempt with
    | .ok v => ([req], .ok v)
    | .err msg =>
      if (attempt : Int) = maxRetries - 1 then
        ([req], .error (finalErrorMsg maxRetries msg))
      else
        let rest := answerStructuredGo attempts maxRetries sys user
          (attempt + 1) fuel (some msg)
        (req :: LLMEvent.wait (1000 * (attempt + 1)) :: rest.1, rest.2)

/-- `answerStructured` from `src/lib/services/llm/llm.ts`, as the event
trace (requests and waits) it emits together with its result. `sys` is the
enhanced system prompt (the caller's system prompt with the serialized
JSON schema), `user` the user prompt. -/
def answerStructured {α : Type} (attempts : Nat → AttemptOutcome α)
    (maxRetries : Int) (sys user : String) :
    List LLMEvent × Except String α :=
  answerStructuredGo attempts maxRetries sys user 0 maxRetries.toNat none

/-- The default of the `maxRetries` option of `answerStructured`. -/
def defaultMaxRetries : Int := 3

/-- The events of `k` consecutive failed attempts starting at attempt
number `lo`: each contributes its request and then the linear-backoff wait
of `1000 * (attempt number + 1)` milliseconds. -/
def failEventsFrom (sys user : String) (lo : Nat) : Nat → List LLMEvent
  | 0 => []
  | k + 1 =>
    LLMEvent.request (attemptSystemContent sys lo) (attemptUserContent user lo)
      :: LLMEvent.wait (1000 * (lo + 1))
      :: failEventsFrom sys user (lo + 1) k

/-- Recognizer for request events, to count provider calls in a trace. -/
def isRequestEvent : LLMEvent → Bool
  | .request _ _ => true
  | .wait _ => false

/-- The message of the error thrown inside the `try` when the completion has
no content: `No response content from LLM`; the `catch` treats it like any
other attempt failure. -/
def noContentErrorMsg : String := "No response content from LLM"

/-!
Part 3 embeds `zodSchemaToJsonSchema` from `src/lib/services/llm/llm.ts`:
the derivation of the machine-readable JSON-schema shape sent to the model
from the zod `responseSchema`.

Modelling conventions:
- a zod schema tree is the inductive `ZodSchema`; an object shape's
  key-schema pairs are the mutual inductive `ZodFields` (insertion order
  preserved, as for a JS object); any zod node outside the handled
  `instanceof` chain is `unsupported`, carrying whether it accepts
  `undefined` (what `isOptional()` would report for it);
- the returned JS object is its serialized form, a list of key-value
  pairs; `JSON.stringify` drops keys whose value is `undefined`, so
  `required: required.length > 0 ? required : undefined` is the presence
  or absence of the `required` key;
- the spread `{ ...innerSchema, nullable: true }` is `jsSpreadSet`:
  overwrite the key in place when present, append it otherwise.
-/

mutual

/-- A zod schema tree, restricted to the node kinds the `instanceof` chain
of `zodSchemaToJsonSchema` distinguishes. -/
inductive ZodSchema where
  | obj (fields : ZodFields)
  | str
  | num
  | boolean
  | arr (elem : ZodSchema)
  | opt (inner : ZodSchema)
  | nullable (inner : ZodSchema)
  | enumOf (options : List String)
  | unsupported (acceptsUndefined : Bool)

/-- The key-schema pairs of a zod object shape, in insertion order. -/
inductive ZodFields where
  | nil
  | cons (key : String) (schema : ZodSchema) (rest : ZodFields)

end

/-- zod's `isOptional()`: whether the schema accepts `undefined`.
`ZodOptional` always does, `ZodNullable` does iff its inner schema does,
the other handled kinds do not. -/
def ZodSchema.isOptional : ZodSchema → Bool
  | .opt _ => true
  | .nullable inner => inner.isOptional
  | .unsupported b => b
  | _ => false

/-- A JSON value, as far as the derived shape description needs. -/
inductive JsonVal where
  | str (s : String)
  | strList (l : List String)
  | obj (fields : List (String × JsonVal))
  | bool (b : Bool)

/-- The list of keys of an object shape. -/
def ZodFields.toList : ZodFields → List (String × ZodSchema)
  | .nil => []
  | .cons k v rest => (k, v) :: rest.toList

/-- JS object spread `{ ...fields, k: v }`: overwrite the value of `k` in
place when the key is present, append the pair otherwise. -/
def jsSpreadSet (fields : List (String × JsonVal)) (k : String)
    (v : JsonVal) : List (String × JsonVal) :=
  if (fields.map Prod.fst).contains k then
    fields.map (fun p => if p.1 = k then (k, v) else p)
  else
    fields ++ [(k, v)]

/-- The `required` array built by the object case of
`zodSchemaToJsonSchema`: the keys pushed by the loop, i.e. those whose
schema is not `isOptional()`. -/
def zodRequiredKeys : ZodFields → List String
  | .nil => []
  | .cons k v rest =>
    if v.isOptional then zodRequiredKeys rest
    else k :: zodRequiredKeys rest

mutual

/-- `zodSchemaToJsonSchema` from `src/lib/services/llm/llm.ts`, returning
the serialized form of the produced JS object (the `required` key is
absent when the list is empty, since its `undefined` value is dropped by
`JSON.stringify`). -/
def zodSchemaToJsonSchema : ZodSchema → List (String × JsonVal)
  | .obj fields =>
    let required := zodRequiredKeys fields
    [("type", JsonVal.str "object"),
     ("properties", JsonVal.obj (zodPropsToJsonSchema fields))]
      ++ (if required.length > 0 then [("required", JsonVal.strList required)]
          else [])
  | .str => [("type", JsonVal.str "string")]
  | .num => [("type", JsonVal.str "number")]
  | .boolean => [("type", JsonVal.str "boolean")]
  | .arr e =>
    [("type", JsonVal.str "array"),
     ("items", JsonVal.obj (zodSchemaToJsonSchema e))]
  | .opt inner => zodSchemaToJsonSchema inner
  | .nullable inner =>
    jsSpreadSet (zodSchemaToJsonSchema inner) "nullable" (JsonVal.bool true)
  | .enumOf options => [("type", JsonVal.str "string"),
      ("enum", JsonVal.strList options)]
  | .unsupported _ => []

/-- The `properties` object built by the object case: each key mapped to
the derived shape of its schema, in order. -/
def zodPropsToJsonSchema : ZodFields → List (String × JsonVal)
  | .nil => []
  | .cons k v rest =>
    (k, JsonVal.obj (zodSchemaToJsonSchema v)) :: zodPropsToJsonSchema rest

end

/-- Modelled from the specification wording: the `required` list is the
list of the non-optional keys. -/
def specRequiredKeys (fields : ZodFields) : List String :=
  (fields.toList.filter (fun kv => !kv.2.isOptional)).map Prod.fst

mutual

/-- Modelled from the specification wording (spec §4.2 step 1 and claim
C9): object maps to a shape with per-key properties and a required list
of the non-optional keys; string, number, boolean map to the bare typed
shape; array carries the derived item shape; optional unwraps to the
inner shape; nullable is the inner shape with the nullable marker set;
enum is a string shape with the enum options; every unsupported node
degrades to the empty, unconstrained placeholder shape. -/
def specShapeOf : ZodSchema → List (String × JsonVal)
  | .obj fields =>
    let req := specRequiredKeys fields
    [("type", JsonVal.str "object"),
     ("properties", JsonVal.obj (specShapeProps fields))]
      ++ (if req = [] then [] else [("required", JsonVal.strList req)])
  | .str => [("type", JsonVal.str "string")]
  | .num => [("type", JsonVal.str "number")]
  | .boolean => [("type", JsonVal.str "boolean")]
  | .arr e =>
    [("type", JsonVal.str "array"),
     ("items", JsonVal.obj (specShapeOf e))]
  | .opt inner => specShapeOf inner
  | .nullable inner =>
    jsSpreadSet (specShapeOf inner) "nullable" (JsonVal.bool true)
  | .enumOf options => [("type", JsonVal.str "string"),
      ("enum", JsonVal.strList options)]
  | .unsupported _ => []

/-- Modelled from the specification wording: the per-key derived shapes of
an object's fields. -/
def specShapeProps : ZodFields → List (String × JsonVal)
  | .nil => []
  | .cons k v rest => (k, JsonVal.obj (specShapeOf v)) :: specShapeProps rest

end

/-- C1: for every email whose domain (the `split("@")[1]` segment) lies in a
non-empty `AllowedDomainSet`, `isEmailAllowed` returns true immediately,
for every content of the whitelist table. -/
theorem isEmailAllowed_domain_allows (config : AuthConfig)
    (whitelist : List String) (email d : String)
    (hne : config.allowedEmailDomains ≠ [])
    (hd : emailDomain email = some d)
    (hmem : d ∈ config.allowedEmailDomains) :
    isEmailAllowed config whitelist email = true := by
  have hlen : 0 < config.allowedEmailDomains.length := List.length_pos.mpr hne
  have hinc : jsIncludes config.allowedEmailDomains (emailDomain email)
      = true := by
    rw [hd]
    simp only [jsIncludes]
    exact List.elem_eq_true_of_mem hmem
  unfold isEmailAllowed
  rw [hinc]
  simp [hlen]

/-- C1 witness: `a@acme.com` with allowed domain `acme.com` and an empty
whitelist table is allowed. -/
theorem isEmailAllowed_domain_allows_witness :
    isEmailAllowed ⟨["acme.com"]⟩ [] "a@acme.com" = true :=
  isEmailAllowed_domain_allows ⟨["acme.com"]⟩ [] "a@acme.com" "acme.com"
    (by decide) rfl (by decide)

/-- C2: for every email not admitted by the domain rule (domain list empty,
or the email domain not included), `isEmailAllowed` is exactly the
whitelist-table membership of the lowercased email. -/
theorem isEmailAllowed_whitelist_only (config : AuthConfig)
    (whitelist : List String) (email : String)
    (h : config.allowedEmailDomains = [] ∨
      jsIncludes config.allowedEmailDomains (emailDomain email) = false) :
    isEmailAllowed config whitelist email
      = whitelist.contains (jsToLowerCase email)
    ∧ (isEmailAllowed config whitelist email = true ↔
        jsToLowerCase email ∈ whitelist) := by
  have heq : isEmailAllowed config whitelist email
      = whitelist.contains (jsToLowerCase email) := by
    unfold isEmailAllowed
    rcases h with h | h
    · simp [h]
    · simp [h]
  exact ⟨heq, by rw [heq]; exact List.elem_iff⟩

/-- C2 witness: with allowed domain `acme.com`, the email `a@other.com` is
decided purely by the whitelist table: absent it is denied, and present
(lowercased) it is allowed. -/
theorem isEmailAllowed_whitelist_only_witness :
    isEmailAllowed ⟨["acme.com"]⟩ [] "a@other.com" = false
    ∧ isEmailAllowed ⟨["acme.com"]⟩ ["a@other.com"] "A@Other.com" = true := by
  constructor
  · have h := isEmailAllowed_whitelist_only ⟨["acme.com"]⟩ [] "a@other.com"
      (Or.inr rfl)
    simpa using h.1
  · have h := isEmailAllowed_whitelist_only ⟨["acme.com"]⟩ ["a@other.com"]
      "A@Other.com" (Or.inr rfl)
    rw [h.1]
    rfl

/-- C3: the `isAdmin` flag persisted for a new user equals
(domain list non-empty AND the email domain is included); in particular a
user admitted only through the per-email whitelist (domain not included)
is created with `isAdmin = false`. -/
theorem createUser_isAdmin_spec (config : AuthConfig) (email : String) :
    createUserIsAdmin config email
      = (!config.allowedEmailDomains.isEmpty &&
          jsIncludes config.allowedEmailDomains (emailDomain email))
    ∧ (∀ whitelist : List String,
        isEmailAllowed config whitelist email = true →
        jsIncludes config.allowedEmailDomains (emailDomain email) = false →
        createUserIsAdmin config email = false) := by
  constructor
  · unfold createUserIsAdmin
    by_cases he : email = ""
    · subst he
      have hdom : emailDomain "" = none := rfl
      simp [hdom, jsIncludes]
    · cases hl : config.allowedEmailDomains with
      | nil => simp [he, hl, jsIncludes, emailDomain]
      | cons a tl => simp [he, hl]
  · intro whitelist _ hfalse
    unfold createUserIsAdmin
    split
    · exact hfalse
    · rfl

/-- C3 witness: `guest@x.com` is admitted through the whitelist table only
(empty domain list) and is created with `isAdmin = false`; and
`a@acme.com` under allowed domain `acme.com` is created with
`isAdmin = true`. -/
theorem createUser_isAdmin_spec_witness :
    createUserIsAdmin ⟨[]⟩ "guest@x.com" = false
    ∧ createUserIsAdmin ⟨["acme.com"]⟩ "a@acme.com" = true := by
  constructor
  · exact (createUser_isAdmin_spec ⟨[]⟩ "guest@x.com").2 ["guest@x.com"]
      (by decide) rfl
  · rw [(createUser_isAdmin_spec ⟨["acme.com"]⟩ "a@acme.com").1]
    decide

/-- C4: the sign-in callback throws `AccessDenied` when the email is absent
(or JS-falsy, i.e. empty); otherwise it grants the sign-in exactly when
`isEmailAllowed` holds, and a disallowed email yields a plain `false`
denial rather than a thrown error. -/
theorem signIn_callback_gate (config : AuthConfig) (whitelist : List String) :
    signInCallback config whitelist none = SignInDecision.accessDeniedError
    ∧ signInCallback config whitelist (some "")
        = SignInDecision.accessDeniedError
    ∧ ∀ e : String, e ≠ "" →
        signInCallback config whitelist (some e)
          = (if isEmailAllowed config whitelist e then SignInDecision.allowed
              else SignInDecision.denied) := by
  refine ⟨rfl, rfl, ?_⟩
  intro e he
  unfold signInCallback
  simp [he]

/-- C4 witness: with allowed domain `acme.com` and an empty whitelist table,
a missing email throws, `a@acme.com` is allowed, and `a@other.com` is
denied without a thrown error. -/
theorem signIn_callback_gate_witness :
    signInCallback ⟨["acme.com"]⟩ [] none = SignInDecision.accessDeniedError
    ∧ signInCallback ⟨["acme.com"]⟩ [] (some "a@acme.com")
        = SignInDecision.allowed
    ∧ signInCallback ⟨["acme.com"]⟩ [] (some "a@other.com")
        = SignInDecision.denied := by
  have h := signIn_callback_gate ⟨["acme.com"]⟩ []
  refine ⟨h.1, ?_, ?_⟩
  · rw [h.2.2 "a@acme.com" (by decide)]
    decide
  · rw [h.2.2 "a@other.com" (by decide)]
    decide

/-- C5: the admin PATCH handler rejects any request in which the acting
admin targets their own record with `isAdmin = false`, regardless of the
rest of the table, leaving the table unchanged; the same request against a
different user id succeeds and clears that user's flag. -/
theorem patchUserAdmin_self_demotion_guard (s : SessionUser)
    (table : List UserRow) (target : String) (hadmin : s.isAdmin = true) :
    patchUserAdmin (some s) (some false) s.userId table
      = (PatchResponse.selfDemotionRejected, table)
    ∧ (target ≠ s.userId →
        patchUserAdmin (some s) (some false) target table
          = (PatchResponse.success,
              table.map (fun u =>
                if u.id = target then { u with isAdmin := false } else u))) := by
  constructor
  · unfold patchUserAdmin
    simp [hadmin]
  · intro hne
    have hne2 : ¬ (s.userId = target) := fun hh => hne hh.symm
    unfold patchUserAdmin
    simp [hadmin, hne2]

/-- C5 witness: admin `u1` cannot clear their own flag (table unchanged) but
clears `u2`'s flag successfully. -/
theorem patchUserAdmin_self_demotion_guard_witness :
    patchUserAdmin (some ⟨"u1", true⟩) (some false) "u1"
        [⟨"u1", true⟩, ⟨"u2", true⟩]
      = (PatchResponse.selfDemotionRejected, [⟨"u1", true⟩, ⟨"u2", true⟩])
    ∧ patchUserAdmin (some ⟨"u1", true⟩) (some false) "u2"
        [⟨"u1", true⟩, ⟨"u2", true⟩]
      = (PatchResponse.success, [⟨"u1", true⟩, ⟨"u2", false⟩]) := by
  have h := patchUserAdmin_self_demotion_guard ⟨"u1", true⟩
    [⟨"u1", true⟩, ⟨"u2", true⟩] "u2" rfl
  refine ⟨h.1, ?_⟩
  rw [h.2 (by decide)]
  rfl

/-- C8: every email stored by the whitelist POST handler is the lowercased,
trimmed input and is appended to the table; a valid email whose normalized
form already has a row conflicts with the unique constraint and leaves the
table unchanged; the no-duplicate check preserves uniqueness of the stored
emails; and inserting `User@Example.com` into an empty table stores
`user@example.com`, which the `isEmailAllowed` lookup of
`user@example.com` then finds. -/
theorem whitelistPost_lowercase_unique (table : List String)
    (email stored : String) (after : List String) :
    (whitelistPost table email = (.created stored, after) →
      stored = jsTrim (jsToLowerCase email) ∧ after = table ++ [stored])
    ∧ (emailRegexOk email = true →
        jsTrim (jsToLowerCase email) ∈ table →
        whitelistPost table email = (.conflict, table))
    ∧ (table.Nodup → whitelistPost table email = (.created stored, after) →
        after.Nodup)
    ∧ whitelistPost [] "User@Example.com"
        = (.created "user@example.com", ["user@example.com"])
    ∧ isEmailAllowed ⟨[]⟩ ["user@example.com"] "user@example.com" = true := by
  have hcreated : whitelistPost table email = (.created stored, after) →
      stored = jsTrim (jsToLowerCase email)
      ∧ after = table ++ [stored]
      ∧ table.contains (jsTrim (jsToLowerCase email)) = false := by
    intro h
    simp only [whitelistPost] at h
    split_ifs at h with h1 h2 h3
    · exact absurd h (by simp)
    · exact absurd h (by simp)
    · exact absurd h (by simp)
    · rw [Prod.mk.injEq] at h
      obtain ⟨hs, ha⟩ := h
      obtain rfl := (WhitelistPostResponse.created.inj hs).symm
      obtain rfl := ha
      exact ⟨rfl, rfl, by simpa using h3⟩
  refine ⟨fun h => ⟨(hcreated h).1, (hcreated h).2.1⟩, ?_, ?_, rfl, rfl⟩
  · intro hre hmem
    have he : email ≠ "" := by
      intro h
      subst h
      exact absurd hre (by decide)
    have hc : table.contains (jsTrim (jsToLowerCase email)) = true :=
      List.elem_eq_true_of_mem hmem
    unfold whitelistPost
    simp [he, hre, hc, hmem]
  · intro hnd h
    obtain ⟨hs, ha, hnc⟩ := hcreated h
    subst hs
    subst ha
    refine List.Nodup.append hnd (List.nodup_singleton _) ?_
    intro a hmem hmem1
    rw [List.mem_singleton] at hmem1
    subst hmem1
    have : table.contains (jsTrim (jsToLowerCase email)) = true :=
      List.elem_eq_true_of_mem hmem
    rw [this] at hnc
    cases hnc

/-- C8 witness: inserting `USER@example.com` while `user@example.com` is
already stored hits the unique constraint and leaves the table unchanged. -/
theorem whitelistPost_lowercase_unique_witness :
    whitelistPost ["user@example.com"] "USER@example.com"
      = (.conflict, ["user@example.com"]) :=
  (whitelistPost_lowercase_unique ["user@example.com"] "USER@example.com"
    "" []).2.1 rfl (by decide)

/-- If every attempt before `k` fails and attempt `k` succeeds within the
budget, the loop emits exactly the failure events of attempts
`attempt, ..., k-1` followed by the request of attempt `k`, and returns the
validated value of attempt `k`. -/
theorem answerStructuredGo_first_success {α : Type}
    (attempts : Nat → AttemptOutcome α) (mr : Int) (sys user : String)
    (v : α) :
    ∀ (fuel attempt : Nat) (le : Option String) (k : Nat),
    attempt ≤ k → k < attempt + fuel → (k : Int) < mr →
    attempts k = .ok v →
    (∀ i, attempt ≤ i → i < k → ∃ m, attempts i = AttemptOutcome.err m) →
    answerStructuredGo attempts mr sys user attempt fuel le
      = (failEventsFrom sys user attempt (k - attempt)
          ++ [LLMEvent.request (attemptSystemContent sys k)
                (attemptUserContent user k)],
         Except.ok v) := by
  intro fuel
  induction fuel with
  | zero =>
    intro attempt le k h1 h2 _ _ _
    omega
  | succ f ih =>
    intro attempt le k h1 h2 hkmr hok hfail
    by_cases heq : attempt = k
    · subst heq
      simp [answerStructuredGo, hok, failEventsFrom]
    · have hlt : attempt < k := lt_of_le_of_ne h1 heq
      obtain ⟨m, hm⟩ := hfail attempt le_rfl hlt
      have hne : ¬ ((attempt : Int) = mr - 1) := by omega
      have hrec := ih (attempt + 1) (some m) k (by omega) (by omega) hkmr
        hok (fun i hi1 hi2 => hfail i (by omega) hi2)
      have hsub : k - attempt = (k - (attempt + 1)) + 1 := by omega
      simp only [answerStructuredGo, hm, if_neg hne, hrec, hsub,
        failEventsFrom]
      simp

/-- If every attempt within the budget fails, the loop result is the
descriptive error built from the configured attempt count and the message
of the final attempt's failure. -/
theorem answerStructuredGo_all_fail {α : Type}
    (attempts : Nat → AttemptOutcome α) (mr : Int) (sys user : String)
    (m : Nat → String) :
    ∀ (fuel attempt : Nat) (le : Option String),
    1 ≤ fuel → ((attempt : Int) + fuel = mr) →
    (∀ i, attempt ≤ i → i < attempt + fuel →
      attempts i = AttemptOutcome.err (m i)) →
    (answerStructuredGo attempts mr sys user attempt fuel le).2
      = .error (finalErrorMsg mr (m (attempt + fuel - 1))) := by
  intro fuel
  induction fuel with
  | zero => omega
  | succ f ih =>
    intro attempt le h1 h2 hfail
    have hm := hfail attempt le_rfl (by omega)
    by_cases hf : f = 0
    · subst hf
      have hlast : (attempt : Int) = mr - 1 := by omega
      simp [answerStructuredGo, hm, if_pos hlast]
    · have hne : ¬ ((attempt : Int) = mr - 1) := by omega
      have hrec := ih (attempt + 1) (some (m attempt)) (by omega) (by omega)
        (fun i hi1 hi2 => hfail i (by omega) (by omega))
      have hsub : attempt + 1 + f - 1 = attempt + (f + 1) - 1 := by omega
      simp only [answerStructuredGo, hm, if_neg hne]
      rw [hrec, hsub]

/-- Any validated value returned by the loop is the outcome of the first
succeeding attempt within the budget: all earlier attempts failed. -/
theorem answerStructuredGo_ok_inv {α : Type}
    (attempts : Nat → AttemptOutcome α) (mr : Int) (sys user : String) :
    ∀ (fuel attempt : Nat) (le : Option String) (v : α),
    (answerStructuredGo attempts mr sys user attempt fuel le).2 = .ok v →
    ∃ k, attempt ≤ k ∧ k < attempt + fuel ∧ attempts k = .ok v ∧
      ∀ i, attempt ≤ i → i < k → ∃ m, attempts i = AttemptOutcome.err m := by
  intro fuel
  induction fuel with
  | zero =>
    intro attempt le v h
    exact absurd h (by simp [answerStructuredGo])
  | succ f ih =>
    intro attempt le v h
    rcases hatt : attempts attempt with w | m
    · simp only [answerStructuredGo, hatt] at h
      obtain rfl := Except.ok.inj h
      exact ⟨attempt, le_rfl, by omega, hatt, fun i hi1 hi2 => by omega⟩
    · by_cases hlast : (attempt : Int) = mr - 1
      · simp only [answerStructuredGo, hatt, if_pos hlast] at h
        exact absurd h (by simp)
      · simp only [answerStructuredGo, hatt, if_neg hlast] at h
        obtain ⟨k, hk1, hk2, hk3, hk4⟩ := ih (attempt + 1) (some m) v h
        refine ⟨k, by omega, by omega, hk3, ?_⟩
        intro i hi1 hi2
        by_cases hieq : i = attempt
        · exact ⟨m, hieq ▸ hatt⟩
        · exact hk4 i (by omega) hi2

/-- Within a positive budget aligned with `maxRetries`, the loop result is
either a validated value or the descriptive final-attempt error. -/
theorem answerStructuredGo_shape {α : Type}
    (attempts : Nat → AttemptOutcome α) (mr : Int) (sys user : String) :
    ∀ (fuel attempt : Nat) (le : Option String),
    1 ≤ fuel → ((attempt : Int) + fuel = mr) →
    (∃ v, (answerStructuredGo attempts mr sys user attempt fuel le).2
        = .ok v)
    ∨ (∃ m, (answerStructuredGo attempts mr sys user attempt fuel le).2
        = .error (finalErrorMsg mr m)) := by
  intro fuel
  induction fuel with
  | zero => omega
  | succ f ih =>
    intro attempt le h1 h2
    rcases hatt : attempts attempt with w | m
    · exact Or.inl ⟨w, by simp [answerStructuredGo, hatt]⟩
    · by_cases hf : f = 0
      · subst hf
        have hlast : (attempt : Int) = mr - 1 := by omega
        exact Or.inr ⟨m, by simp [answerStructuredGo, hatt, if_pos hlast]⟩
      · have hne : ¬ ((attempt : Int) = mr - 1) := by omega
        have hrec := ih (attempt + 1) (some m) (by omega) (by omega)
        rcases hrec with ⟨w, hw⟩ | ⟨s, hs⟩
        · left
          refine ⟨w, ?_⟩
          simp only [answerStructuredGo, hatt, if_neg hne]
          exact hw
        · right
          refine ⟨s, ?_⟩
          simp only [answerStructuredGo, hatt, if_neg hne]
          exact hs

/-- The loop issues at most `fuel` provider requests. -/
theorem answerStructuredGo_request_count {α : Type}
    (attempts : Nat → AttemptOutcome α) (mr : Int) (sys user : String) :
    ∀ (fuel attempt : Nat) (le : Option String),
    ((answerStructuredGo attempts mr sys user attempt fuel le).1.countP
      isRequestEvent) ≤ fuel := by
  intro fuel
  induction fuel with
  | zero =>
    intro attempt le
    simp [answerStructuredGo]
  | succ f ih =>
    intro attempt le
    rcases hatt : attempts attempt with w | m
    · simp [answerStructuredGo, hatt, List.countP_cons, isRequestEvent]
    · by_cases hlast : (attempt : Int) = mr - 1
      · simp [answerStructuredGo, hatt, if_pos hlast, List.countP_cons,
          isRequestEvent]
      · have hrec := ih (attempt + 1) (some m)
        simp only [answerStructuredGo, hatt, if_neg hlast]
        simp [List.countP_cons, isRequestEvent]
        omega

/-- C6: when the first `k` attempts fail and attempt `k` (0-based) succeeds
within the budget, the emitted trace is exactly: for each failed attempt
`i`, its request followed by a wait of `1000 * (i + 1)` ms (linear backoff
by the 1-based attempt number), then the final request; the first attempt
uses the plain prompts and every retry attempt appends the emphatic
JSON-only instruction to the system prompt and the reminder to the user
prompt; any run issues at most `maxRetries.toNat` requests; and the
default of `maxRetries` is 3 total attempts. -/
theorem answerStructured_backoff_and_retry_prompts {α : Type}
    (attempts : Nat → AttemptOutcome α) (mr : Int) (sys user : String)
    (k : Nat) (v : α) (hk : (k : Int) < mr)
    (hfail : ∀ i, i < k → ∃ m, attempts i = AttemptOutcome.err m)
    (hok : attempts k = AttemptOutcome.ok v) :
    answerStructured attempts mr sys user
      = (failEventsFrom sys user 0 k
          ++ [LLMEvent.request (attemptSystemContent sys k)
                (attemptUserContent user k)],
         Except.ok v)
    ∧ attemptSystemContent sys 0 = sys
    ∧ attemptUserContent user 0 = user
    ∧ (∀ i, attemptSystemContent sys (i + 1) = sys ++ retryInstructionText)
    ∧ (∀ i, attemptUserContent user (i + 1) = user ++ retryReminderText)
    ∧ (∀ other : Nat → AttemptOutcome α,
        ((answerStructured other mr sys user).1.countP isRequestEvent)
          ≤ mr.toNat)
    ∧ defaultMaxRetries = 3 := by
  refine ⟨?_, by simp [attemptSystemContent],
    by simp [attemptUserContent],
    fun i => by simp [attemptSystemContent],
    fun i => by simp [attemptUserContent],
    fun other =>
      answerStructuredGo_request_count other mr sys user mr.toNat 0 none,
    rfl⟩
  have h := answerStructuredGo_first_success attempts mr sys user v
    mr.toNat 0 none k (Nat.zero_le _) (by omega) hk hok
    (fun i _ hi2 => hfail i hi2)
  simpa [answerStructured] using h

/-- C6 witness: first attempt fails, second succeeds within a budget of 3:
the run issues the plain-prompt request, waits 1000 ms, issues the
retry-prompt request, and returns the value. -/
theorem answerStructured_backoff_and_retry_prompts_witness :
    answerStructured
        (fun i => if i = 0 then AttemptOutcome.err "invalid json"
          else AttemptOutcome.ok (7 : Nat)) 3 "S" "U"
      = ([LLMEvent.request "S" "U", LLMEvent.wait 1000,
          LLMEvent.request ("S" ++ retryInstructionText)
            ("U" ++ retryReminderText)],
         Except.ok 7) := by
  have h := answerStructured_backoff_and_retry_prompts
    (fun i => if i = 0 then AttemptOutcome.err "invalid json"
      else AttemptOutcome.ok (7 : Nat)) 3 "S" "U" 1 7 (by decide)
    (fun i hi => ⟨"invalid json", by
      have h0 : i = 0 := by omega
      subst h0
      rfl⟩) rfl
  rw [h.1]
  simp only [Prod.mk.injEq]
  exact ⟨by decide, trivial⟩

/-- C7: `answerStructured` returns the validated value of the first attempt
that parses and validates, and only such a value (the only success exit);
and when every attempt within the budget fails — provider error, empty
content, JSON parse error or schema error alike — it throws the single
descriptive error naming the configured attempt count and wrapping the
final attempt's underlying message. -/
theorem answerStructured_first_valid_or_final_error {α : Type}
    (attempts : Nat → AttemptOutcome α) (mr : Int) (sys user : String) :
    (∀ (k : Nat) (v : α), (k : Int) < mr →
      attempts k = AttemptOutcome.ok v →
      (∀ i, i < k → ∃ m, attempts i = AttemptOutcome.err m) →
      (answerStructured attempts mr sys user).2 = Except.ok v)
    ∧ (∀ v : α, (answerStructured attempts mr sys user).2 = Except.ok v →
        ∃ k : Nat, (k : Int) < mr ∧ attempts k = AttemptOutcome.ok v ∧
          ∀ i, i < k → ∃ m, attempts i = AttemptOutcome.err m)
    ∧ (∀ m : Nat → String, 1 ≤ mr →
        (∀ i, i < mr.toNat → attempts i = AttemptOutcome.err (m i)) →
        (answerStructured attempts mr sys user).2
          = Except.error (finalErrorMsg mr (m (mr.toNat - 1)))) := by
  refine ⟨?_, ?_, ?_⟩
  · intro k v hk hok hfail
    have h := answerStructuredGo_first_success attempts mr sys user v
      mr.toNat 0 none k (Nat.zero_le _) (by omega) hk hok
      (fun i _ hi2 => hfail i hi2)
    rw [answerStructured, h]
  · intro v h
    obtain ⟨k, _, hk2, hk3, hk4⟩ :=
      answerStructuredGo_ok_inv attempts mr sys user mr.toNat 0 none v h
    exact ⟨k, by omega, hk3, fun i hi => hk4 i (Nat.zero_le _) hi⟩
  · intro m hmr hfail
    have h := answerStructuredGo_all_fail attempts mr sys user m
      mr.toNat 0 none (by omega) (by omega) (fun i _ hi2 => hfail i (by omega))
    simpa [answerStructured] using h

/-- C7 witness: an empty-content failure (`No response content from LLM`)
on the first attempt is retried like any other failure and the second
attempt's validated value is returned; and a run of 2 attempts that all
fail with a parse error throws the descriptive error citing 2 attempts
and the last message. -/
theorem answerStructured_first_valid_or_final_error_witness :
    (answerStructured
        (fun i => if i = 0 then AttemptOutcome.err noContentErrorMsg
          else AttemptOutcome.ok (7 : Nat)) 3 "S" "U").2 = Except.ok 7
    ∧ (answerStructured
        (fun _ => AttemptOutcome.err "Unexpected token i in JSON"
          : Nat → AttemptOutcome Nat) 2 "S" "U").2
      = Except.error (finalErrorMsg 2 "Unexpected token i in JSON") := by
  constructor
  · apply (answerStructured_first_valid_or_final_error
      (fun i => if i = 0 then AttemptOutcome.err noContentErrorMsg
        else AttemptOutcome.ok (7 : Nat)) 3 "S" "U").1 1 7 (by decide) rfl
    intro i hi
    refine ⟨noContentErrorMsg, ?_⟩
    have h0 : i = 0 := by omega
    subst h0
    rfl
  · exact (answerStructured_first_valid_or_final_error
      (fun _ => AttemptOutcome.err "Unexpected token i in JSON") 2 "S"
      "U").2.2 (fun _ => "Unexpected token i in JSON") (by decide)
      (fun i hi => rfl)

/-- C10: for `maxRetries ≥ 1` the fallback throw after the loop is
unreachable: the run either returns a validated value or throws the
descriptive final-attempt error from inside the loop; for
`maxRetries ≤ 0` the loop body never runs, no request event is emitted,
and the run throws the generic fallback error. -/
theorem answerStructured_fallback_unreachable {α : Type}
    (attempts : Nat → AttemptOutcome α) (mr : Int) (sys user : String) :
    (mr ≤ 0 →
      answerStructured attempts mr sys user
        = ([], Except.error fallbackErrorMsg))
    ∧ (1 ≤ mr →
        (∃ v, (answerStructured attempts mr sys user).2 = Except.ok v)
        ∨ (∃ m, (answerStructured attempts mr sys user).2
            = Except.error (finalErrorMsg mr m))) := by
  constructor
  · intro hmr
    have h0 : mr.toNat = 0 := by omega
    rw [answerStructured, h0]
    rfl
  · intro hmr
    exact answerStructuredGo_shape attempts mr sys user mr.toNat 0 none
      (by omega) (by omega)

/-- C10 witness: with `maxRetries = 0` the run emits no event and throws the
generic fallback error even though every attempt would succeed; with
`maxRetries = 1` the result is a value or the descriptive error. -/
theorem answerStructured_fallback_unreachable_witness :
    answerStructured (fun _ => AttemptOutcome.ok (5 : Nat)) 0 "S" "U"
      = ([], Except.error fallbackErrorMsg)
    ∧ ((∃ v, (answerStructured (fun _ => AttemptOutcome.ok (5 : Nat)) 1
          "S" "U").2 = Except.ok v)
        ∨ (∃ m, (answerStructured (fun _ => AttemptOutcome.ok (5 : Nat)) 1
            "S" "U").2 = Except.error (finalErrorMsg 1 m))) :=
  ⟨(answerStructured_fallback_unreachable (fun _ => AttemptOutcome.ok 5) 0
      "S" "U").1 (by decide),
   (answerStructured_fallback_unreachable (fun _ => AttemptOutcome.ok 5) 1
      "S" "U").2 (by decide)⟩

/-- The loop's `required` array is exactly the non-optional keys. -/
theorem zodRequiredKeys_eq_spec : ∀ fields : ZodFields,
    zodRequiredKeys fields = specRequiredKeys fields
  | .nil => rfl
  | .cons k v rest => by
    have ih := zodRequiredKeys_eq_spec rest
    simp only [zodRequiredKeys, specRequiredKeys, ZodFields.toList,
      List.filter_cons]
    by_cases hv : v.isOptional
    · simp [hv, ih, specRequiredKeys]
    · simp [hv, ih, specRequiredKeys]

/-- The source property loop is the per-key map over the field list. -/
theorem zodPropsToJsonSchema_eq_map : ∀ fields : ZodFields,
    zodPropsToJsonSchema fields
      = fields.toList.map
          (fun kv => (kv.1, JsonVal.obj (zodSchemaToJsonSchema kv.2)))
  | .nil => rfl
  | .cons k v rest => by
    simp only [zodPropsToJsonSchema, ZodFields.toList, List.map_cons,
      zodPropsToJsonSchema_eq_map rest]

mutual

/-- The source derivation agrees with the specification's shape mapping on
every schema tree. -/
theorem zodSchemaToJsonSchema_eq_specShapeOf :
    ∀ s : ZodSchema, zodSchemaToJsonSchema s = specShapeOf s
  | .obj fields => by
    have hp := zodPropsToJsonSchema_eq_specShapeProps fields
    have hr := zodRequiredKeys_eq_spec fields
    simp only [zodSchemaToJsonSchema, specShapeOf, hp, hr]
    cases hreq : specRequiredKeys fields with
    | nil => simp
    | cons a l => simp
  | .str => rfl
  | .num => rfl
  | .boolean => rfl
  | .arr e => by
    simp only [zodSchemaToJsonSchema, specShapeOf,
      zodSchemaToJsonSchema_eq_specShapeOf e]
  | .opt inner => by
    simp only [zodSchemaToJsonSchema, specShapeOf,
      zodSchemaToJsonSchema_eq_specShapeOf inner]
  | .nullable inner => by
    simp only [zodSchemaToJsonSchema, specShapeOf,
      zodSchemaToJsonSchema_eq_specShapeOf inner]
  | .enumOf options => rfl
  | .unsupported b => rfl

/-- The source property loop agrees with the specification's per-key
mapping on every field list. -/
theorem zodPropsToJsonSchema_eq_specShapeProps :
    ∀ fields : ZodFields,
      zodPropsToJsonSchema fields = specShapeProps fields
  | .nil => rfl
  | .cons k v rest => by
    simp only [zodPropsToJsonSchema, specShapeProps,
      zodSchemaToJsonSchema_eq_specShapeOf v,
      zodPropsToJsonSchema_eq_specShapeProps rest]

end

/-- C9: the shape derivation maps exactly the supported node kinds as the
specification describes — object with per-key properties and the
required list of the non-optional keys, bare string/number/boolean
shapes, array with the derived item shape, optional unwrapped, nullable
as the inner shape with the nullable marker, enum as a string shape with
the options — and every unsupported node degrades to the empty
placeholder; the property loop is the per-key map and the required array
is the filtered key list. -/
theorem zodSchemaToJsonSchema_supported_kinds :
    (∀ s : ZodSchema, zodSchemaToJsonSchema s = specShapeOf s)
    ∧ (∀ fields : ZodFields,
        zodPropsToJsonSchema fields
          = fields.toList.map
              (fun kv => (kv.1, JsonVal.obj (zodSchemaToJsonSchema kv.2))))
    ∧ (∀ fields : ZodFields,
        zodRequiredKeys fields
          = (fields.toList.filter
              (fun kv => !kv.2.isOptional)).map Prod.fst)
    ∧ (∀ b, zodSchemaToJsonSchema (ZodSchema.unsupported b) = []) := by
  refine ⟨zodSchemaToJsonSchema_eq_specShapeOf, ?_, ?_, fun b => rfl⟩
  · intro fields
    exact zodPropsToJsonSchema_eq_map fields
  · intro fields
    rw [zodRequiredKeys_eq_spec fields, specRequiredKeys]
